import Mathlib

/-
Verification of the incremental-sync / backward-paging core of a personal
weather station sync tool (sync_weather.py).

The embedding below models:
  * an observation `Row` (the 25 columns of the `weather` table; SQLite REAL
    columns are modelled as nullable rationals, since the program only stores
    and compares these values and never computes with them);
  * the local store as a list of rows, with the primary key (device_id,
    timestamp) and SQLite `REPLACE INTO` semantics (delete any row with a
    conflicting key, then insert the new row);
  * the watermark query `_most_recent_device_timestamp` (SQL MAX with the
    NULL result mapped to 0);
  * the backward-paging loop `_sync_device_for_range` and its driver
    `_sync_device`.  The remote API (`_fetch_device_data_for_range`, i.e.
    the api_token plus the HTTP GET) is abstracted as a function
    `fetch : device_id -> start -> end -> rows` supplied by the caller;
    the loop records the (chunk_start, end_timestamp) window of every fetch
    call it issues, in order, together with the final store.
-/

set_option linter.unusedVariables false

/-- One row of the `weather` table.  `device_id` and `timestamp` are the
INTEGER NOT NULL primary-key columns; the TEXT columns are nullable strings;
`bucket_step_minutes` is a nullable integer; the remaining REAL columns are
nullable rationals. -/
structure Row where
  device_id : Int
  timestamp : Int
  type : Option String := none
  bucket_step_minutes : Option Int := none
  wind_lull : Option Rat := none
  wind_avg : Option Rat := none
  wind_gust : Option Rat := none
  wind_dir : Option Rat := none
  wind_interval : Option Rat := none
  pressure : Option Rat := none
  temperature : Option Rat := none
  humidity : Option Rat := none
  lux : Option Rat := none
  uv : Option Rat := none
  solar_radiation : Option Rat := none
  precip : Option Rat := none
  precip_type : Option String := none
  strike_distance : Option Rat := none
  strike_count : Option Rat := none
  battery : Option Rat := none
  report_interval : Option Rat := none
  local_daily_precip : Option Rat := none
  precip_final : Option Rat := none
  local_daily_precip_final : Option Rat := none
  precip_analysis_type : Option String := none
deriving DecidableEq, Repr

/-- The number of seconds in a day (`ONE_DAY_IN_SECONDS = 24 * 3600`). -/
def ONE_DAY_IN_SECONDS : Int := 24 * 3600

/-- The primary key of a row: the pair (device_id, timestamp). -/
def rowKey (r : Row) : Int × Int := (r.device_id, r.timestamp)

/-- A store is the list of rows of the `weather` table.  Row order is not
observable through SQL, so store equality up to permutation is the right
notion of "same table contents". -/
abbrev Store := List Row

/-- Reading one row by primary key (SELECT ... WHERE device_id = ? AND
timestamp = ?). -/
def lookupRow (store : Store) (k : Int × Int) : Option Row :=
  store.find? (fun r => rowKey r == k)

/-- The primary-key constraint of the `weather` table: no two rows share a
(device_id, timestamp) key.  Every store reachable from an empty table
through the tool's writes satisfies this. -/
def KeysUnique (store : Store) : Prop :=
  (store.map rowKey).Nodup

instance (store : Store) : Decidable (KeysUnique store) := by
  unfold KeysUnique; infer_instance

/-- SQLite `REPLACE INTO weather VALUES (...)` for a single row: delete any
existing row with the same (device_id, timestamp) key, then insert the new
row (INSERT_WEATHER_DATA_SQL_TEMPLATE). -/
def replaceRow (store : Store) (r : Row) : Store :=
  store.filter (fun s => !(rowKey s == rowKey r)) ++ [r]

/-- Embeds `_write_data_for_device`: `con.executemany` runs the REPLACE
statement once per data row, in order, inside one transaction. -/
def _write_data_for_device (store : Store) (data_rows : List Row) : Store :=
  data_rows.foldl replaceRow store

/-- Embeds `_most_recent_device_timestamp`: SELECT MAX(timestamp) FROM
weather WHERE device_id = ?, with the NULL result (no rows for the device)
mapped to 0. -/
def _most_recent_device_timestamp (device_id : Int) (store : Store) : Int :=
  match (store.filter (fun r => r.device_id == device_id)).map
      (fun r => r.timestamp) with
  | [] => 0
  | t :: ts => ts.foldl max t

/-- Embeds the while loop of `_sync_device_for_range`.  The parameter
`start_timestamp` is the source's `range_start` (the fixed lower bound of the
requested span); the source reuses its `start_timestamp` variable for the
per-iteration chunk start, called `chunk_start` here.  Returns the list of
(chunk_start, end_timestamp) windows passed to fetch, in call order, and the
final store. -/
def _sync_device_for_range (fetch : Int → Int → Int → List Row)
    (device_id : Int) (store : Store)
    (start_timestamp end_timestamp : Int) : List (Int × Int) × Store :=
  if h : start_timestamp < end_timestamp then
    -- Limit each request to one days' data.
    let chunk_start := max (end_timestamp - ONE_DAY_IN_SECONDS) start_timestamp
    let data_rows := fetch device_id chunk_start end_timestamp
    -- Exit the loop if we've exhausted the data from Tempest.
    if data_rows.isEmpty then
      ([(chunk_start, end_timestamp)], store)
    else
      -- Write the data, then continue with the next chunk of data.
      let store2 := _write_data_for_device store data_rows
      let rest := _sync_device_for_range fetch device_id store2
        start_timestamp chunk_start
      ((chunk_start, end_timestamp) :: rest.1, rest.2)
  else
    ([], store)
termination_by (end_timestamp - start_timestamp).toNat
decreasing_by
  simp only [ONE_DAY_IN_SECONDS]
  omega

/-- The start of the sync range computed by `_sync_device` (line
`start_timestamp = min(most_recent_timestamp, end_timestamp -
ONE_DAY_IN_SECONDS)`). -/
def syncRangeStart (device_id : Int) (store : Store) (now : Int) : Int :=
  min (_most_recent_device_timestamp device_id store)
    (now - ONE_DAY_IN_SECONDS)

/-- Embeds `_sync_device`: read the watermark, take `end_timestamp = now`,
compute the range start, and run the paging loop. -/
def _sync_device (fetch : Int → Int → Int → List Row) (device_id : Int)
    (store : Store) (now : Int) : List (Int × Int) × Store :=
  let end_timestamp := now
  let start_timestamp := syncRangeStart device_id store now
  _sync_device_for_range fetch device_id store start_timestamp end_timestamp

/-- Chain property of a list of fetch windows, starting from a given end
timestamp: each window (s, e) ends exactly where the previous one started
(so consecutive windows share only the boundary timestamp — no gaps and no
overlaps), moves strictly backward (s < e), and spans at most 24 hours. -/
def windowsChained : Int → List (Int × Int) → Prop
  | _, [] => True
  | e, w :: rest =>
    w.2 = e ∧ w.1 < w.2 ∧ w.2 - w.1 ≤ ONE_DAY_IN_SECONDS ∧
      windowsChained w.1 rest

/-- Modelled from the spec: the transactional behaviour of the database
connection used by `_write_data_for_device` (the `with con:` block around
`executemany`) is provided by the sqlite3 library, outside this repository's
source.  Per the spec, the whole batch is one transaction: rows are written
in order and "on partial failure, no partial set of rows should be visible
to later reads for that batch — the whole batch is atomic".  `failsOn`
says which rows the storage layer fails on; a failure aborts the statement
sequence with an error. -/
def executemanyReplace (failsOn : Row → Bool) (store : Store) :
    List Row → Except Unit Store
  | [] => Except.ok store
  | r :: rs =>
    if failsOn r then Except.error ()
    else executemanyReplace failsOn (replaceRow store r) rs

/-- Modelled from the spec: `_write_data_for_device` as seen through the
transaction boundary — on success the batch commits, on any failure the
transaction rolls back and the store is unchanged. -/
def writeDataTransactional (failsOn : Row → Bool) (store : Store)
    (data_rows : List Row) : Store :=
  match executemanyReplace failsOn store data_rows with
  | Except.ok store2 => store2
  | Except.error _ => store

/-- Test fixture: a row carrying only its primary key (all nullable columns
NULL). -/
def rowAt (d t : Int) : Row := { device_id := d, timestamp := t }

/-- Test fixture: a row with a temperature reading. -/
def tempRow (d t : Int) (temp : Rat) : Row :=
  { device_id := d, timestamp := t, temperature := some temp }

/-- Test fixture: a remote source with one row available in every window. -/
def oneRowFetch : Int → Int → Int → List Row := fun _ _ _ => [rowAt 1 1000]

/-- Test fixture: a remote source that always answers with no rows. -/
def emptyFetch : Int → Int → Int → List Row := fun _ _ _ => []

/-- Test fixture: a remote source that always answers with the single row
already stored in the one-row demo store. -/
def echoFetch : Int → Int → Int → List Row := fun _ _ _ => [rowAt 1 990]

/-- Test fixture: a three-row store for device 1 with timestamps
100, 200, 500. -/
def demoStore : Store := [rowAt 1 100, rowAt 1 200, rowAt 1 500]

/-- Test fixture: a storage layer that fails on any row with timestamp
2000. -/
def failAt2000 : Row → Bool := fun r => r.timestamp == 2000

theorem le_foldl_max (ts : List Int) : ∀ t : Int,
    t ≤ ts.foldl max t ∧ ∀ x ∈ ts, x ≤ ts.foldl max t := by
  induction ts with
  | nil => intro t; simp
  | cons a ts ih =>
    intro t
    constructor
    · exact le_trans (le_max_left t a) (ih (max t a)).1
    · intro x hx
      rcases List.mem_cons.mp hx with h | h
      · subst h
        exact le_trans (le_max_right t x) (ih (max t x)).1
      · simpa using (ih (max t a)).2 x h

theorem foldl_max_mem (ts : List Int) : ∀ t : Int,
    ts.foldl max t = t ∨ ts.foldl max t ∈ ts := by
  induction ts with
  | nil => intro t; simp
  | cons a ts ih =>
    intro t
    rcases max_choice t a with hm | hm <;> rw [List.foldl_cons, hm]
    · rcases ih t with h | h
      · left; exact h
      · right; exact List.mem_cons_of_mem a h
    · rcases ih a with h | h
      · right; rw [h]; exact List.mem_cons_self a ts
      · right; exact List.mem_cons_of_mem a h

theorem lookupRow_replaceRow_self (store : Store) (r : Row) :
    lookupRow (replaceRow store r) (rowKey r) = some r := by
  unfold lookupRow replaceRow
  rw [List.find?_append]
  have h1 : (store.filter (fun s => !(rowKey s == rowKey r))).find?
      (fun s => rowKey s == rowKey r) = none := by
    rw [List.find?_eq_none]
    intro x hx
    have := List.of_mem_filter hx
    simpa using this
  simp [h1]

theorem lookupRow_replaceRow_ne (store : Store) (r : Row) (k : Int × Int)
    (hne : k ≠ rowKey r) :
    lookupRow (replaceRow store r) k = lookupRow store k := by
  unfold lookupRow replaceRow
  rw [List.find?_append]
  have h2 : ([r].find? (fun s => rowKey s == k)) = none := by
    simp [hne.symm]
  induction store with
  | nil => simp [h2]
  | cons a t ih =>
    by_cases ha : rowKey a == rowKey r
    · have ha' : rowKey a = rowKey r := by simpa using ha
      have hak : (rowKey a == k) = false := by
        simp [ha']; exact fun h => hne h.symm
      simp [List.filter_cons, ha, hak] at *
      exact ih
    · by_cases hak : rowKey a == k
      · simp [List.filter_cons, ha, hak]
      · simp [List.filter_cons, ha, hak] at *
        exact ih

theorem lookupRow_write_untouched (rows : List Row) : ∀ (store : Store)
    (k : Int × Int), (∀ y ∈ rows, rowKey y ≠ k) →
    lookupRow (_write_data_for_device store rows) k = lookupRow store k := by
  induction rows with
  | nil => intro store k h; rfl
  | cons x xs ih =>
    intro store k h
    have hx : k ≠ rowKey x := fun he => h x (List.mem_cons_self x xs) he.symm
    calc lookupRow (_write_data_for_device (replaceRow store x) xs) k
        = lookupRow (replaceRow store x) k :=
          ih (replaceRow store x) k (fun y hy => h y (List.mem_cons_of_mem x hy))
      _ = lookupRow store k := lookupRow_replaceRow_ne store x k hx

theorem lookupRow_write_last (rows : List Row) : ∀ (store : Store) (r : Row),
    (rows.filter (fun x => rowKey x == rowKey r)).getLast? = some r →
    lookupRow (_write_data_for_device store rows) (rowKey r) = some r := by
  induction rows with
  | nil => intro store r h; simp at h
  | cons x xs ih =>
    intro store r h
    by_cases hx : (rowKey x == rowKey r : Bool)
    · have hfc : (x :: xs).filter (fun x => rowKey x == rowKey r)
          = x :: xs.filter (fun x => rowKey x == rowKey r) := by
        simp [List.filter_cons, hx]
      rw [hfc] at h
      match hxs : xs.filter (fun x => rowKey x == rowKey r) with
      | [] =>
        rw [hxs] at h
        simp at h
        subst h
        have hnone : ∀ y ∈ xs, rowKey y ≠ rowKey x := by
          intro y hy he
          have hmem : y ∈ xs.filter (fun z => rowKey z == rowKey x) :=
            List.mem_filter.mpr ⟨hy, by simpa using he⟩
          rw [hxs] at hmem
          simp at hmem
        show lookupRow (_write_data_for_device (replaceRow store x) xs)
          (rowKey x) = some x
        rw [lookupRow_write_untouched xs (replaceRow store x) (rowKey x) hnone,
          lookupRow_replaceRow_self]
      | y :: ys =>
        rw [hxs] at h
        rw [List.getLast?_cons_cons] at h
        rw [← hxs] at h
        exact ih (replaceRow store x) r h
    · have hfc : (x :: xs).filter (fun x => rowKey x == rowKey r)
          = xs.filter (fun x => rowKey x == rowKey r) := by
        simp [List.filter_cons, hx]
      rw [hfc] at h
      exact ih (replaceRow store x) r h

theorem keys_replaceRow (store : Store) (r : Row) (k : Int × Int)
    (h : ∃ s ∈ store, rowKey s = k) :
    ∃ s ∈ replaceRow store r, rowKey s = k := by
  by_cases hk : k = rowKey r
  · exact ⟨r, List.mem_append_right _ (List.mem_singleton_self r), hk.symm⟩
  · obtain ⟨s, hs, hsk⟩ := h
    refine ⟨s, List.mem_append_left _ ?_, hsk⟩
    refine List.mem_filter.mpr ⟨hs, ?_⟩
    simp [hsk]
    exact fun he => hk (he ▸ hsk ▸ rfl)

theorem keys_write (rows : List Row) : ∀ (store : Store) (k : Int × Int),
    (∃ s ∈ store, rowKey s = k) →
    ∃ s ∈ _write_data_for_device store rows, rowKey s = k := by
  induction rows with
  | nil => intro store k h; exact h
  | cons x xs ih =>
    intro store k h
    exact ih (replaceRow store x) k (keys_replaceRow store x k h)


theorem filter_eq_self_of_no_key (store : Store) (k : Int × Int)
    (h : ∀ s ∈ store, rowKey s ≠ k) :
    store.filter (fun s => !(rowKey s == k)) = store := by
  apply List.filter_eq_self.mpr
  intro a ha
  simpa using h a ha

theorem keysUnique_perm {s t : Store} (h : s.Perm t) (hU : KeysUnique s) :
    KeysUnique t :=
  ((h.map rowKey).nodup_iff).mp hU

theorem keysUnique_cons {a : Row} {t : Store} (h : KeysUnique (a :: t)) :
    rowKey a ∉ t.map rowKey ∧ KeysUnique t := by
  unfold KeysUnique at h ⊢
  rw [List.map_cons] at h
  exact List.nodup_cons.mp h

theorem replaceRow_perm (r : Row) : ∀ (store : Store), KeysUnique store →
    lookupRow store (rowKey r) = some r →
    (replaceRow store r).Perm store := by
  intro store
  induction store with
  | nil => intro _ hL; simp [lookupRow] at hL
  | cons a t ih =>
    intro hU hL
    have hUc := keysUnique_cons hU
    by_cases ha : (rowKey a == rowKey r : Bool)
    · have hak : rowKey a = rowKey r := by simpa using ha
      have har : a = r := by
        unfold lookupRow at hL
        rw [List.find?_cons_of_pos (p := fun s => rowKey s == rowKey r) _ ha]
          at hL
        simpa using hL
      have hnk : ∀ s ∈ t, rowKey s ≠ rowKey r := by
        intro s hs he
        exact hUc.1 (by rw [hak, ← he]; exact List.mem_map_of_mem rowKey hs)
      have hrw : replaceRow (a :: t) r = t ++ [r] := by
        unfold replaceRow
        have h1 : (!(rowKey a == rowKey r)) = false := by simp [ha]
        rw [List.filter_cons, h1]
        simp only [Bool.false_eq_true, if_false]
        rw [filter_eq_self_of_no_key t (rowKey r) hnk]
      rw [hrw, har]
      exact List.perm_append_singleton r t
    · have hrw : replaceRow (a :: t) r = a :: replaceRow t r := by
        unfold replaceRow
        have h1 : (!(rowKey a == rowKey r)) = true := by simp [ha]
        rw [List.filter_cons, h1]
        simp
      have hL' : lookupRow t (rowKey r) = some r := by
        unfold lookupRow at hL ⊢
        rwa [List.find?_cons_of_neg (p := fun s => rowKey s == rowKey r) _
          (by simpa using ha)] at hL
      rw [hrw]
      exact (ih hUc.2 hL').cons a

theorem lookupRow_eq_some_iff (k : Int × Int) (r : Row) :
    ∀ (store : Store), KeysUnique store →
    (lookupRow store k = some r ↔ r ∈ store ∧ rowKey r = k) := by
  intro store
  induction store with
  | nil => intro _; simp [lookupRow]
  | cons a t ih =>
    intro hU
    have hUc := keysUnique_cons hU
    have hUt : KeysUnique t := hUc.2
    by_cases hak : (rowKey a == k : Bool)
    · have hak' : rowKey a = k := by simpa using hak
      unfold lookupRow
      rw [List.find?_cons_of_pos (p := fun s => rowKey s == k) _ hak]
      constructor
      · intro h
        have har : a = r := by simpa using h
        exact ⟨har ▸ List.mem_cons_self a t, har ▸ hak'⟩
      · rintro ⟨hmem, hk⟩
        rcases List.mem_cons.mp hmem with h | h
        · rw [h]
        · exfalso
          exact hUc.1 (by rw [hak', ← hk]; exact List.mem_map_of_mem rowKey h)
    · unfold lookupRow
      rw [List.find?_cons_of_neg (p := fun s => rowKey s == k) _ hak]
      rw [show (List.find? (fun s => rowKey s == k) t = some r)
          = (lookupRow t k = some r) from rfl, ih hUt]
      constructor
      · rintro ⟨hmem, hk⟩
        exact ⟨List.mem_cons_of_mem a hmem, hk⟩
      · rintro ⟨hmem, hk⟩
        rcases List.mem_cons.mp hmem with h | h
        · exfalso; rw [← h] at hak; simp [hk] at hak
        · exact ⟨h, hk⟩

theorem lookupRow_perm_eq {s t : Store} (h : s.Perm t) (hU : KeysUnique s)
    (k : Int × Int) : lookupRow s k = lookupRow t k := by
  have hUt := keysUnique_perm h hU
  cases hm : lookupRow s k with
  | some r =>
    obtain ⟨hmem, hk⟩ := (lookupRow_eq_some_iff k r s hU).mp hm
    exact ((lookupRow_eq_some_iff k r t hUt).mpr ⟨h.mem_iff.mp hmem, hk⟩).symm
  | none =>
    cases hm' : lookupRow t k with
    | none => rfl
    | some r =>
      obtain ⟨hmem, hk⟩ := (lookupRow_eq_some_iff k r t hUt).mp hm'
      have hsome : lookupRow s k = some r :=
        (lookupRow_eq_some_iff k r s hU).mpr ⟨h.mem_iff.mpr hmem, hk⟩
      rw [hsome] at hm
      exact absurd hm (by simp)

theorem write_perm (rows : List Row) : ∀ (store : Store), KeysUnique store →
    (∀ r ∈ rows, lookupRow store (rowKey r) = some r) →
    (_write_data_for_device store rows).Perm store := by
  induction rows with
  | nil => intro store _ _; exact List.Perm.refl store
  | cons x xs ih =>
    intro store hU hall
    have h1 : (replaceRow store x).Perm store :=
      replaceRow_perm x store hU (hall x (List.mem_cons_self x xs))
    have hU1 : KeysUnique (replaceRow store x) := keysUnique_perm h1.symm hU
    have hall1 : ∀ r ∈ xs, lookupRow (replaceRow store x) (rowKey r) = some r := by
      intro r hr
      rw [lookupRow_perm_eq h1 hU1 (rowKey r)]
      exact hall r (List.mem_cons_of_mem x hr)
    exact (ih (replaceRow store x) hU1 hall1).trans h1

theorem syncLoop_windows (fetch : Int → Int → Int → List Row) (d : Int) :
    ∀ (n : Nat) (rs e : Int) (store : Store), (e - rs).toNat ≤ n →
    windowsChained e (_sync_device_for_range fetch d store rs e).1 := by
  intro n
  induction n with
  | zero =>
    intro rs e store hn
    have hge : ¬ rs < e := by omega
    rw [_sync_device_for_range]
    simp [hge, windowsChained]
  | succ n ih =>
    intro rs e store hn
    rw [_sync_device_for_range]
    by_cases hlt : rs < e
    · have hchunk_lt : max (e - ONE_DAY_IN_SECONDS) rs < e := by
        simp only [ONE_DAY_IN_SECONDS]; omega
      have hspan : e - max (e - ONE_DAY_IN_SECONDS) rs ≤ ONE_DAY_IN_SECONDS := by
        simp only [ONE_DAY_IN_SECONDS]; omega
      by_cases hemp :
          ((fetch d (max (e - ONE_DAY_IN_SECONDS) rs) e).isEmpty : Bool)
      · simp [hlt, hemp, windowsChained, hchunk_lt, hspan]
      · have hfuel : (max (e - ONE_DAY_IN_SECONDS) rs - rs).toNat ≤ n := by
          simp only [ONE_DAY_IN_SECONDS] at *; omega
        simp [hlt, hemp, windowsChained, hchunk_lt, hspan]
        exact ih rs (max (e - ONE_DAY_IN_SECONDS) rs) _ hfuel
    · simp [hlt, windowsChained]

theorem syncLoop_keys (fetch : Int → Int → Int → List Row) (d : Int)
    (k : Int × Int) :
    ∀ (n : Nat) (rs e : Int) (store : Store), (e - rs).toNat ≤ n →
    (∃ s ∈ store, rowKey s = k) →
    ∃ s ∈ (_sync_device_for_range fetch d store rs e).2, rowKey s = k := by
  intro n
  induction n with
  | zero =>
    intro rs e store hn hk
    have hge : ¬ rs < e := by omega
    rw [_sync_device_for_range]
    simpa [hge] using hk
  | succ n ih =>
    intro rs e store hn hk
    rw [_sync_device_for_range]
    by_cases hlt : rs < e
    · by_cases hemp :
          ((fetch d (max (e - ONE_DAY_IN_SECONDS) rs) e).isEmpty : Bool)
      · simpa [hlt, hemp] using hk
      · have hfuel : (max (e - ONE_DAY_IN_SECONDS) rs - rs).toNat ≤ n := by
          simp only [ONE_DAY_IN_SECONDS] at *; omega
        simp only [hlt, dif_pos, hemp, Bool.false_eq_true, if_false]
        exact ih rs (max (e - ONE_DAY_IN_SECONDS) rs) _ hfuel
          (keys_write _ store k hk)
    · simpa [hlt] using hk

theorem syncLoop_perm (fetch : Int → Int → Int → List Row) (d : Int)
    (store0 : Store) (hU : KeysUnique store0)
    (hf : ∀ s e : Int, ∀ r ∈ fetch d s e, lookupRow store0 (rowKey r) = some r) :
    ∀ (n : Nat) (rs e : Int) (store : Store), (e - rs).toNat ≤ n →
    store.Perm store0 →
    ((_sync_device_for_range fetch d store rs e).2).Perm store0 := by
  intro n
  induction n with
  | zero =>
    intro rs e store hn hp
    have hge : ¬ rs < e := by omega
    rw [_sync_device_for_range]
    simpa [hge] using hp
  | succ n ih =>
    intro rs e store hn hp
    rw [_sync_device_for_range]
    by_cases hlt : rs < e
    · by_cases hemp :
          ((fetch d (max (e - ONE_DAY_IN_SECONDS) rs) e).isEmpty : Bool)
      · simpa [hlt, hemp] using hp
      · have hfuel : (max (e - ONE_DAY_IN_SECONDS) rs - rs).toNat ≤ n := by
          simp only [ONE_DAY_IN_SECONDS] at *; omega
        simp only [hlt, dif_pos, hemp, Bool.false_eq_true, if_false]
        have hUs : KeysUnique store := keysUnique_perm hp.symm hU
        have hall : ∀ r ∈ fetch d (max (e - ONE_DAY_IN_SECONDS) rs) e,
            lookupRow store (rowKey r) = some r := by
          intro r hr
          rw [lookupRow_perm_eq hp hUs (rowKey r)]
          exact hf (max (e - ONE_DAY_IN_SECONDS) rs) e r hr
        have hw : (_write_data_for_device store
            (fetch d (max (e - ONE_DAY_IN_SECONDS) rs) e)).Perm store0 :=
          (write_perm _ store hUs hall).trans hp
        exact ih rs (max (e - ONE_DAY_IN_SECONDS) rs) _ hfuel hw
    · simpa [hlt] using hp

theorem syncLoop_calls_length (fetch : Int → Int → Int → List Row) (d : Int) :
    ∀ (n : Nat) (rs e : Int) (store : Store), (e - rs).toNat ≤ n →
    (_sync_device_for_range fetch d store rs e).1.length ≤ (e - rs).toNat := by
  intro n
  induction n with
  | zero =>
    intro rs e store hn
    have hge : ¬ rs < e := by omega
    rw [_sync_device_for_range]
    simp [hge]
  | succ n ih =>
    intro rs e store hn
    rw [_sync_device_for_range]
    by_cases hlt : rs < e
    · by_cases hemp :
          ((fetch d (max (e - ONE_DAY_IN_SECONDS) rs) e).isEmpty : Bool)
      · simp only [hlt, dif_pos, hemp, if_true]
        simp only [List.length_singleton]
        omega
      · have hfuel : (max (e - ONE_DAY_IN_SECONDS) rs - rs).toNat ≤ n := by
          simp only [ONE_DAY_IN_SECONDS] at *; omega
        simp only [hlt, dif_pos, hemp, Bool.false_eq_true, if_false]
        simp only [List.length_cons]
        have hrec := ih rs (max (e - ONE_DAY_IN_SECONDS) rs)
          (_write_data_for_device store
            (fetch d (max (e - ONE_DAY_IN_SECONDS) rs) e)) hfuel
        have hlt2 : (max (e - ONE_DAY_IN_SECONDS) rs - rs).toNat
            < (e - rs).toNat := by
          simp only [ONE_DAY_IN_SECONDS] at *; omega
        omega
    · simp [hlt]

theorem executemanyReplace_fail (failsOn : Row → Bool) :
    ∀ (rows : List Row) (store : Store), (∃ r ∈ rows, failsOn r) →
    executemanyReplace failsOn store rows = Except.error () := by
  intro rows
  induction rows with
  | nil => intro store h; simp at h
  | cons x xs ih =>
    intro store h
    by_cases hx : (failsOn x : Bool)
    · simp [executemanyReplace, hx]
    · have hxs : ∃ r ∈ xs, failsOn r := by
        obtain ⟨r, hr, hfail⟩ := h
        rcases List.mem_cons.mp hr with he | he
        · exact absurd (he ▸ hfail) hx
        · exact ⟨r, he, hfail⟩
      simp [executemanyReplace, hx]
      exact ih (replaceRow store x) hxs

theorem executemanyReplace_ok (failsOn : Row → Bool) :
    ∀ (rows : List Row) (store : Store), (∀ r ∈ rows, failsOn r = false) →
    executemanyReplace failsOn store rows
      = Except.ok (_write_data_for_device store rows) := by
  intro rows
  induction rows with
  | nil => intro store h; rfl
  | cons x xs ih =>
    intro store h
    have hx : failsOn x = false := h x (List.mem_cons_self x xs)
    simp [executemanyReplace, hx]
    exact ih (replaceRow store x) (fun r hr => h r (List.mem_cons_of_mem x hr))

theorem most_recent_nil (device_id : Int) (store : Store)
    (h : store.filter (fun r => r.device_id == device_id) = []) :
    _most_recent_device_timestamp device_id store = 0 := by
  unfold _most_recent_device_timestamp
  rw [h, List.map_nil]

theorem most_recent_cons (device_id : Int) (store : Store) (t : Int)
    (ts : List Int)
    (h : (store.filter (fun r => r.device_id == device_id)).map
      (fun r => r.timestamp) = t :: ts) :
    _most_recent_device_timestamp device_id store = ts.foldl max t := by
  unfold _most_recent_device_timestamp
  rw [h]

theorem keys_write_batch (rows : List Row) : ∀ (store : Store) (r : Row),
    r ∈ rows →
    ∃ s ∈ _write_data_for_device store rows, rowKey s = rowKey r := by
  induction rows with
  | nil => intro store r h; simp at h
  | cons x xs ih =>
    intro store r h
    rcases List.mem_cons.mp h with he | he
    · subst he
      exact keys_write xs (replaceRow store r) (rowKey r)
        ⟨r, List.mem_append_right _ (List.mem_singleton_self r), rfl⟩
    · exact ih (replaceRow store x) r he

theorem syncLoop_first_window (fetch : Int → Int → Int → List Row)
    (d rs e : Int) (store : Store) (hlt : rs < e) :
    (_sync_device_for_range fetch d store rs e).1.head?
        = some (max (e - ONE_DAY_IN_SECONDS) rs, e) ∧
      (_sync_device_for_range fetch d store rs e).1 ≠ [] := by
  rw [_sync_device_for_range]
  by_cases hemp : ((fetch d (max (e - ONE_DAY_IN_SECONDS) rs) e).isEmpty : Bool)
  · simp [hlt, hemp]
  · simp [hlt, hemp]

/-- C1: every fetch call issued by the paging loop covers a window of at
most 24 hours (86400 seconds); the windows proceed strictly backward in
time, consecutive windows sharing exactly their boundary timestamp (no
gaps, no overlaps); and for a requested span of 50 hours with data present
throughout, the loop issues exactly 3 fetch calls. -/
theorem C1_chunked_backward_windows :
    (∀ (fetch : Int → Int → Int → List Row)
        (device_id range_start end_timestamp : Int) (store : Store),
      windowsChained end_timestamp
        (_sync_device_for_range fetch device_id store range_start
          end_timestamp).1) ∧
    (_sync_device_for_range oneRowFetch 1 [] 0 (50 * 3600)).1
      = [(93600, 180000), (7200, 93600), (0, 7200)] ∧
    (_sync_device_for_range oneRowFetch 1 [] 0 (50 * 3600)).1.length = 3 := by
  have hcalls : (_sync_device_for_range oneRowFetch 1 [] 0 (50 * 3600)).1
      = [(93600, 180000), (7200, 93600), (0, 7200)] := by
    simp [_sync_device_for_range, ONE_DAY_IN_SECONDS, oneRowFetch]
  refine ⟨fun fetch d rs e store =>
    syncLoop_windows fetch d (e - rs).toNat rs e store le_rfl, hcalls, ?_⟩
  rw [hcalls]
  rfl

/-- C2: the sync range start is computed as the minimum of the device's
watermark and now − 86400, hence is never later than now − 86400; in
particular a watermark of now − 10 still yields a range start of
now − 86400, so the trailing 24 hours are always re-fetched. -/
theorem C2_range_start_floor (device_id now : Int) (store : Store) :
    syncRangeStart device_id store now
        = min (_most_recent_device_timestamp device_id store) (now - 86400) ∧
    syncRangeStart device_id store now ≤ now - 86400 ∧
    (_most_recent_device_timestamp device_id store = now - 10 →
      syncRangeStart device_id store now = now - 86400) := by
  have hday : ONE_DAY_IN_SECONDS = 86400 := by norm_num [ONE_DAY_IN_SECONDS]
  unfold syncRangeStart
  rw [hday]
  refine ⟨rfl, min_le_right _ _, fun hw => ?_⟩
  rw [hw]
  omega

/-- Witness for C2: with one stored row at timestamp 990 for device 1 and
now = 1000, the watermark is 990 = now − 10 and the computed range start is
now − 86400. -/
theorem C2_range_start_floor_witness :
    _most_recent_device_timestamp 1 [rowAt 1 990] = 1000 - 10 ∧
    syncRangeStart 1 [rowAt 1 990] 1000 = 1000 - 86400 :=
  ⟨by decide, (C2_range_start_floor 1 1000 [rowAt 1 990]).2.2 (by decide)⟩

/-- C3: a fetch call that returns no rows terminates the paging loop at
once: the empty page is the last fetch call issued for the device, no
write happens for that page (the store is returned unchanged), and the
loop ends normally. -/
theorem C3_empty_page_terminates (fetch : Int → Int → Int → List Row)
    (device_id range_start end_timestamp : Int) (store : Store)
    (hlt : range_start < end_timestamp)
    (hemp : fetch device_id
      (max (end_timestamp - ONE_DAY_IN_SECONDS) range_start) end_timestamp
      = []) :
    _sync_device_for_range fetch device_id store range_start end_timestamp
      = ([(max (end_timestamp - ONE_DAY_IN_SECONDS) range_start,
          end_timestamp)], store) := by
  rw [_sync_device_for_range]
  simp [hlt, hemp]

/-- Witness for C3: an always-empty remote source at range (0, 100) stops
after its single empty fetch and leaves the store unchanged. -/
theorem C3_empty_page_terminates_witness :
    (0 : Int) < 100 ∧
    _sync_device_for_range emptyFetch 1 [rowAt 1 1] 0 100
      = ([(max ((100 : Int) - ONE_DAY_IN_SECONDS) 0, 100)], [rowAt 1 1]) :=
  ⟨by decide,
   C3_empty_page_terminates emptyFetch 1 0 100 [rowAt 1 1] (by decide) rfl⟩

/-- C4: the upsert has whole-row replace semantics: for a batch row r whose
(device_id, timestamp) key already exists in the store, and which is the
last batch row with that key, the stored row for that key after the write
is r itself, in every field. -/
theorem C4_whole_row_replace (store : Store) (rows : List Row) (r : Row)
    (hexists : store.any (fun s => rowKey s == rowKey r) = true)
    (hlast : (rows.filter (fun x => rowKey x == rowKey r)).getLast?
      = some r) :
    lookupRow (_write_data_for_device store rows) (rowKey r) = some r :=
  lookupRow_write_last rows store r hlast

/-- Witness for C4: a stored row for key (1, 1000) with temperature 20
re-fetched with temperature 21 reads back as the full new row with
temperature 21. -/
theorem C4_whole_row_replace_witness :
    ([tempRow 1 1000 20] : Store).any
        (fun s => rowKey s == rowKey (tempRow 1 1000 21)) = true ∧
    lookupRow (_write_data_for_device [tempRow 1 1000 20] [tempRow 1 1000 21])
        (rowKey (tempRow 1 1000 21)) = some (tempRow 1 1000 21) ∧
    (tempRow 1 1000 21).temperature = some 21 :=
  ⟨by decide,
   C4_whole_row_replace [tempRow 1 1000 20] [tempRow 1 1000 21]
     (tempRow 1 1000 21) (by decide) (by decide),
   rfl⟩

/-- C5: idempotence — re-running a device sync when every row any fetch
returns is identical to a row already stored leaves the table unchanged up
to row order: the final store is a permutation of the initial one, so the
row count and the content of every row are unchanged. -/
theorem C5_idempotent_sync (fetch : Int → Int → Int → List Row)
    (device_id now : Int) (store : Store)
    (hU : KeysUnique store)
    (hf : ∀ s e : Int, ∀ r ∈ fetch device_id s e,
      lookupRow store (rowKey r) = some r) :
    ((_sync_device fetch device_id store now).2).Perm store ∧
    ((_sync_device fetch device_id store now).2).length = store.length := by
  have hp : ((_sync_device fetch device_id store now).2).Perm store := by
    rw [show _sync_device fetch device_id store now
        = _sync_device_for_range fetch device_id store
          (syncRangeStart device_id store now) now from rfl]
    exact syncLoop_perm fetch device_id store hU hf
      (now - syncRangeStart device_id store now).toNat
      (syncRangeStart device_id store now) now store le_rfl
      (List.Perm.refl store)
  exact ⟨hp, hp.length_eq⟩

/-- Witness for C5: syncing the one-row store against a remote source that
always returns exactly that stored row leaves the store a permutation of
itself. -/
theorem C5_idempotent_sync_witness :
    KeysUnique [rowAt 1 990] ∧
    ((_sync_device echoFetch 1 [rowAt 1 990] 1000).2).Perm [rowAt 1 990] ∧
    ((_sync_device echoFetch 1 [rowAt 1 990] 1000).2).length
      = ([rowAt 1 990] : Store).length := by
  have h := C5_idempotent_sync echoFetch 1 1000 [rowAt 1 990] (by decide)
    (fun s e r hr => by
      rw [show r = rowAt 1 990 from by simpa [echoFetch] using hr]
      decide)
  exact ⟨by decide, h.1, h.2⟩

/-- C6: the watermark query returns the maximum timestamp among the rows
stored for the device (a value attained by one of them and at least every
other), and the sentinel 0 when the store has no rows for the device. -/
theorem C6_watermark_max (device_id : Int) (store : Store) :
    ((∀ r ∈ store, r.device_id ≠ device_id) →
      _most_recent_device_timestamp device_id store = 0) ∧
    (∀ r ∈ store, r.device_id = device_id →
      r.timestamp ≤ _most_recent_device_timestamp device_id store) ∧
    ((∃ r ∈ store, r.device_id = device_id) →
      ∃ r ∈ store, r.device_id = device_id ∧
        r.timestamp = _most_recent_device_timestamp device_id store) := by
  refine ⟨?_, ?_, ?_⟩
  · intro h
    apply most_recent_nil
    rw [List.filter_eq_nil_iff]
    intro a ha
    simpa using h a ha
  · intro r hr hd
    have hmem : r.timestamp ∈ (store.filter
        (fun r => r.device_id == device_id)).map (fun r => r.timestamp) :=
      List.mem_map_of_mem _
        (List.mem_filter.mpr ⟨hr, by simpa using hd⟩)
    cases hm : (store.filter (fun r => r.device_id == device_id)).map
        (fun r => r.timestamp) with
    | nil => rw [hm] at hmem; simp at hmem
    | cons t ts =>
      rw [most_recent_cons device_id store t ts hm]
      rw [hm] at hmem
      rcases List.mem_cons.mp hmem with h | h
      · exact h ▸ (le_foldl_max ts t).1
      · exact (le_foldl_max ts t).2 _ h
  · rintro ⟨r, hr, hd⟩
    have hmem : r.timestamp ∈ (store.filter
        (fun r => r.device_id == device_id)).map (fun r => r.timestamp) :=
      List.mem_map_of_mem _
        (List.mem_filter.mpr ⟨hr, by simpa using hd⟩)
    cases hm : (store.filter (fun r => r.device_id == device_id)).map
        (fun r => r.timestamp) with
    | nil => rw [hm] at hmem; simp at hmem
    | cons t ts =>
      rw [most_recent_cons device_id store t ts hm]
      have hin : ts.foldl max t ∈ t :: ts := by
        rcases foldl_max_mem ts t with h | h
        · rw [h]; exact List.mem_cons_self t ts
        · exact List.mem_cons_of_mem t h
      rw [← hm] at hin
      obtain ⟨r', hr', hts⟩ := List.mem_map.mp hin
      have hrf := List.mem_filter.mp hr'
      exact ⟨r', hrf.1, by simpa using hrf.2, hts⟩

/-- Witness for C6: for the store holding timestamps 100, 200, 500 for
device 1, the watermark of device 1 is 500 (attained by a stored row), and
the watermark of the row-less device 2 is the sentinel 0. -/
theorem C6_watermark_max_witness :
    _most_recent_device_timestamp 1 demoStore = 500 ∧
    (∃ r ∈ demoStore, r.device_id = 1 ∧
      r.timestamp = _most_recent_device_timestamp 1 demoStore) ∧
    _most_recent_device_timestamp 2 demoStore = 0 :=
  ⟨by decide,
   (C6_watermark_max 1 demoStore).2.2 ⟨rowAt 1 500, by decide, by decide⟩,
   (C6_watermark_max 2 demoStore).1 (by decide)⟩

/-- C7: a batch write is atomic: if the storage layer fails on any row of
the batch, the store seen by later reads is unchanged (no row of the batch
is visible); if no row fails, the write equals the plain batch upsert and
every batch row's key is visible afterwards. -/
theorem C7_atomic_batch_write (failsOn : Row → Bool) (store : Store)
    (rows : List Row) :
    ((∃ r ∈ rows, failsOn r = true) →
      writeDataTransactional failsOn store rows = store) ∧
    ((∀ r ∈ rows, failsOn r = false) →
      writeDataTransactional failsOn store rows
          = _write_data_for_device store rows ∧
        ∀ r ∈ rows, ∃ s ∈ writeDataTransactional failsOn store rows,
          rowKey s = rowKey r) := by
  constructor
  · intro h
    unfold writeDataTransactional
    rw [executemanyReplace_fail failsOn rows store h]
  · intro h
    have hok : writeDataTransactional failsOn store rows
        = _write_data_for_device store rows := by
      unfold writeDataTransactional
      rw [executemanyReplace_ok failsOn rows store h]
    refine ⟨hok, fun r hr => ?_⟩
    rw [hok]
    exact keys_write_batch rows store r hr

/-- Witness for C7: with a storage layer failing on timestamp 2000, the
batch [row at 1000, row at 2000] leaves the store unchanged, while the
non-failing batch [row at 1000] commits as the plain upsert. -/
theorem C7_atomic_batch_write_witness :
    writeDataTransactional failAt2000 [rowAt 1 5] [rowAt 1 1000, rowAt 1 2000]
        = [rowAt 1 5] ∧
    writeDataTransactional failAt2000 [rowAt 1 5] [rowAt 1 1000]
        = _write_data_for_device [rowAt 1 5] [rowAt 1 1000] :=
  ⟨(C7_atomic_batch_write failAt2000 [rowAt 1 5]
      [rowAt 1 1000, rowAt 1 2000]).1 ⟨rowAt 1 2000, by decide, by decide⟩,
   ((C7_atomic_batch_write failAt2000 [rowAt 1 5] [rowAt 1 1000]).2
      (by decide)).1⟩

/-- C8: the backward-paging loop terminates for every device, range and
fetch function: the number of fetch calls (loop iterations) is bounded by
the requested span, every continuing iteration moving the window end
strictly backward toward the range start. -/
theorem C8_loop_terminates (fetch : Int → Int → Int → List Row)
    (device_id range_start end_timestamp : Int) (store : Store) :
    (_sync_device_for_range fetch device_id store range_start
      end_timestamp).1.length ≤ (end_timestamp - range_start).toNat :=
  syncLoop_calls_length fetch device_id
    (end_timestamp - range_start).toNat range_start end_timestamp store
    le_rfl

/-- C9: no operation of the tool deletes a stored record: a
(device_id, timestamp) key present in the store is still present after any
upsert batch, and after a whole device sync (watermark read plus upsert
sequence). -/
theorem C9_no_deletion (fetch : Int → Int → Int → List Row)
    (device_id now : Int) (store : Store) (rows : List Row) (k : Int × Int)
    (h : ∃ s ∈ store, rowKey s = k) :
    (∃ s ∈ _write_data_for_device store rows, rowKey s = k) ∧
    (∃ s ∈ (_sync_device fetch device_id store now).2, rowKey s = k) := by
  refine ⟨keys_write rows store k h, ?_⟩
  rw [show _sync_device fetch device_id store now
      = _sync_device_for_range fetch device_id store
        (syncRangeStart device_id store now) now from rfl]
  exact syncLoop_keys fetch device_id k
    (now - syncRangeStart device_id store now).toNat
    (syncRangeStart device_id store now) now store le_rfl h

/-- Witness for C9: the key (1, 5) stored beforehand is still present after
overwriting it with a revised row and after a full device sync. -/
theorem C9_no_deletion_witness :
    (∃ s ∈ _write_data_for_device [rowAt 1 5] [tempRow 1 5 21],
      rowKey s = (1, 5)) ∧
    (∃ s ∈ (_sync_device emptyFetch 1 [rowAt 1 5] 100).2,
      rowKey s = (1, 5)) :=
  C9_no_deletion emptyFetch 1 100 [rowAt 1 5] [tempRow 1 5 21] (1, 5)
    ⟨rowAt 1 5, by decide, by decide⟩

/-- C10: for every watermark, even one at or beyond now, a device sync
issues at least one fetch call, and the first fetch window is exactly
[now − 86400, now]. -/
theorem C10_first_window (fetch : Int → Int → Int → List Row)
    (device_id now : Int) (store : Store) :
    (_sync_device fetch device_id store now).1 ≠ [] ∧
    (_sync_device fetch device_id store now).1.head?
      = some (now - 86400, now) := by
  have hst : syncRangeStart device_id store now ≤ now - ONE_DAY_IN_SECONDS :=
    min_le_right _ _
  have hlt : syncRangeStart device_id store now < now := by
    simp only [ONE_DAY_IN_SECONDS] at hst; omega
  have hmax : max (now - ONE_DAY_IN_SECONDS)
      (syncRangeStart device_id store now) = now - ONE_DAY_IN_SECONDS :=
    max_eq_left hst
  have h := syncLoop_first_window fetch device_id
    (syncRangeStart device_id store now) now store hlt
  rw [hmax] at h
  rw [show _sync_device fetch device_id store now
      = _sync_device_for_range fetch device_id store
        (syncRangeStart device_id store now) now from rfl]
  refine ⟨h.2, ?_⟩
  rw [h.1]
  norm_num [ONE_DAY_IN_SECONDS]
